import Mathlib

/-!
Verification development for the ColorSplit3mf repository
(`color_split_enhanced.py`).  The Python pipeline is shallowly embedded:
vertex indices and paint-color ids are `Nat`, the CPython `dict` used for
`face_lookup` is a function built by successive shadowing writes, the
insertion-ordered `dict` used for `face_paint_colors` is an association
list updated in place, and colour arithmetic of the vertex-colour
fallback is carried out over `ℚ`.
-/

namespace ColorSplit

/-- A mesh face: a triple of vertex indices, in stored order
(`mesh.faces[i]` in the source). -/
abbrev Face := Nat × Nat × Nat

/-- Python `sorted([a, b, c])`: the three values in ascending order. -/
def sort3 (a b c : Nat) : List Nat :=
  if a ≤ b then
    if b ≤ c then [a, b, c]
    else if a ≤ c then [a, c, b]
    else [c, a, b]
  else
    if a ≤ c then [b, a, c]
    else if b ≤ c then [b, c, a]
    else [c, b, a]

/-- `tuple(sorted(face))` — the canonical dictionary key of a face
(`_create_face_lookup`, line 145 of `color_split_enhanced.py`). -/
def sortFace (f : Face) : List Nat := sort3 f.1 f.2.1 f.2.2

/-- Python `set(face)`: the vertex set of a triple
(`_find_face_index`, line 167). -/
def tset (f : Face) : Finset Nat := insert f.1 (insert f.2.1 {f.2.2})

/-- The loop body of `_create_face_lookup` (lines 143–146):
`for i, face in enumerate(mesh.faces): d[tuple(sorted(face))] = i`.
The dictionary is a function; each iteration shadows the previous
binding of the key, so the write of the latest iteration wins. -/
def buildFaceLookup (d : List Nat → Option Nat) (i : Nat) :
    List Face → (List Nat → Option Nat)
  | [] => d
  | f :: fs =>
      buildFaceLookup (fun k => if k = sortFace f then some i else d k) (i + 1) fs

/-- `_create_face_lookup` (lines 129–146): the dictionary from sorted
vertex triples to face positions, starting empty at index `0`. -/
def createFaceLookup (faces : List Face) : List Nat → Option Nat :=
  buildFaceLookup (fun _ => none) 0 faces

/-- `_find_face_index_fast` (lines 148–152): query the dictionary with the
sorted query triple; `dict.get` yields `None` on a missing key. -/
def findFaceIndexFast (lookup : List Nat → Option Nat) (v1 v2 v3 : Nat) :
    Option Nat :=
  lookup (sort3 v1 v2 v3)

/-- The loop of `_find_face_index` (lines 166–170):
`for i, face in enumerate(mesh.faces): if set(face) == {v1, v2, v3}: return i`,
threading the running index `i`. -/
def findFaceIndexAux (v1 v2 v3 : Nat) : Nat → List Face → Option Nat
  | _, [] => none
  | i, f :: fs =>
      if tset f = tset (v1, v2, v3) then some i
      else findFaceIndexAux v1 v2 v3 (i + 1) fs

/-- `_find_face_index` (lines 154–170): linear scan for the first face
whose vertex set equals the query's vertex set. -/
def findFaceIndex (faces : List Face) (v1 v2 v3 : Nat) : Option Nat :=
  findFaceIndexAux v1 v2 v3 0 faces

/-- Position of the last face (at running index `i` onward) whose sorted
key equals `k`; the specification of dictionary construction. -/
def lastMatch (k : List Nat) : Nat → List Face → Option Nat
  | _, [] => none
  | i, f :: fs =>
      match lastMatch k (i + 1) fs with
      | some j => some j
      | none => if sortFace f = k then some i else none

theorem lastMatch_eq_none (fs : List Face) :
    ∀ (i : Nat) (k : List Nat),
      lastMatch k i fs = none ↔ ∀ g ∈ fs, sortFace g ≠ k := by
  induction fs with
  | nil => intro i k; simp [lastMatch]
  | cons f fs ih =>
    intro i k
    rw [lastMatch]
    cases he : lastMatch k (i + 1) fs with
    | some j =>
      simp only []
      constructor
      · intro h; cases h
      · intro h
        have hnone : lastMatch k (i + 1) fs = none :=
          (ih (i + 1) k).mpr (fun g hg => h g (List.mem_cons_of_mem f hg))
        rw [hnone] at he; cases he
    | none =>
      have hfs : ∀ g ∈ fs, sortFace g ≠ k := (ih (i + 1) k).mp he
      simp only []
      by_cases hf : sortFace f = k
      · rw [if_pos hf]
        simp only [List.mem_cons]
        constructor
        · intro h; cases h
        · intro h; exact absurd hf (h f (Or.inl rfl))
      · rw [if_neg hf]
        simp only [List.mem_cons, true_iff]
        intro g hg
        rcases hg with rfl | hg
        · exact hf
        · exact hfs g hg

theorem lastMatch_eq_some (fs : List Face) :
    ∀ (i j : Nat) (k : List Nat),
      lastMatch k i fs = some j ↔
        ∃ t, ∃ h : t < fs.length, j = i + t ∧ sortFace fs[t] = k ∧
          ∀ g ∈ fs.drop (t + 1), sortFace g ≠ k := by
  induction fs with
  | nil => intro i j k; simp [lastMatch]
  | cons f fs ih =>
    intro i j k
    rw [lastMatch]
    constructor
    · intro h
      cases he : lastMatch k (i + 1) fs with
      | some j' =>
        rw [he] at h
        simp only [Option.some.injEq] at h
        subst h
        obtain ⟨t, ht, rfl, hk, hnone⟩ := (ih (i + 1) j' k).mp he
        refine ⟨t + 1, Nat.succ_lt_succ ht, by omega, by simpa using hk, ?_⟩
        simpa using hnone
      | none =>
        rw [he] at h
        by_cases hf : sortFace f = k
        · rw [if_pos hf] at h
          simp only [Option.some.injEq] at h
          subst h
          refine ⟨0, Nat.succ_pos _, by omega, by simpa using hf, ?_⟩
          simpa using (lastMatch_eq_none fs (i + 1) k).mp he
        · rw [if_neg hf] at h; cases h
    · rintro ⟨t, ht, rfl, hk, hnone⟩
      cases t with
      | zero =>
        have hn : lastMatch k (i + 1) fs = none :=
          (lastMatch_eq_none fs (i + 1) k).mpr (by simpa using hnone)
        rw [hn, if_pos (by simpa using hk)]
        simp
      | succ t' =>
        have hs : lastMatch k (i + 1) fs = some ((i + 1) + t') :=
          (ih (i + 1) ((i + 1) + t') k).mpr
            ⟨t', Nat.lt_of_succ_lt_succ ht, rfl, by simpa using hk, by simpa using hnone⟩
        rw [hs]
        simp only [Option.some.injEq]
        omega

theorem buildFaceLookup_eq (fs : List Face) :
    ∀ (d : List Nat → Option Nat) (i : Nat) (k : List Nat),
      buildFaceLookup d i fs k =
        match lastMatch k i fs with
        | some j => some j
        | none => d k := by
  induction fs with
  | nil => intro d i k; simp [buildFaceLookup, lastMatch]
  | cons f fs ih =>
    intro d i k
    rw [buildFaceLookup, ih, lastMatch]
    cases he : lastMatch k (i + 1) fs with
    | some j => rfl
    | none =>
      simp only []
      by_cases hf : sortFace f = k
      · rw [if_pos hf, if_pos hf.symm]
      · rw [if_neg hf, if_neg (fun h => hf h.symm)]

theorem findFaceIndexAux_eq_none (fs : List Face) :
    ∀ (i v1 v2 v3 : Nat),
      findFaceIndexAux v1 v2 v3 i fs = none ↔
        ∀ g ∈ fs, tset g ≠ tset (v1, v2, v3) := by
  induction fs with
  | nil => intro i v1 v2 v3; simp [findFaceIndexAux]
  | cons f fs ih =>
    intro i v1 v2 v3
    rw [findFaceIndexAux]
    by_cases hf : tset f = tset (v1, v2, v3)
    · rw [if_pos hf]
      simp only [List.mem_cons]
      constructor
      · intro h; cases h
      · intro h; exact absurd hf (h f (Or.inl rfl))
    · rw [if_neg hf]
      rw [ih]
      simp only [List.mem_cons]
      constructor
      · intro h g hg
        rcases hg with rfl | hg
        · exact hf
        · exact h g hg
      · intro h g hg; exact h g (Or.inr hg)

theorem findFaceIndexAux_eq_some (fs : List Face) :
    ∀ (i j v1 v2 v3 : Nat),
      findFaceIndexAux v1 v2 v3 i fs = some j ↔
        ∃ t, ∃ h : t < fs.length, j = i + t ∧ tset fs[t] = tset (v1, v2, v3) ∧
          ∀ g ∈ fs.take t, tset g ≠ tset (v1, v2, v3) := by
  induction fs with
  | nil => intro i j v1 v2 v3; simp [findFaceIndexAux]
  | cons f fs ih =>
    intro i j v1 v2 v3
    rw [findFaceIndexAux]
    by_cases hf : tset f = tset (v1, v2, v3)
    · rw [if_pos hf]
      constructor
      · intro h
        simp only [Option.some.injEq] at h
        subst h
        exact ⟨0, Nat.succ_pos _, by omega, by simpa using hf, by simp⟩
      · rintro ⟨t, ht, rfl, hk, hnone⟩
        cases t with
        | zero => simp
        | succ t' =>
          exact absurd hf (hnone f (by simp))
    · rw [if_neg hf]
      rw [ih]
      constructor
      · rintro ⟨t, ht, rfl, hk, hnone⟩
        refine ⟨t + 1, Nat.succ_lt_succ ht, by omega, by simpa using hk, ?_⟩
        intro g hg
        rw [List.take_succ_cons] at hg
        rcases List.mem_cons.mp hg with rfl | hg
        · exact hf
        · exact hnone g hg
      · rintro ⟨t, ht, rfl, hk, hnone⟩
        cases t with
        | zero => exact absurd (by simpa using hk) hf
        | succ t' =>
          refine ⟨t', Nat.lt_of_succ_lt_succ ht, by omega, by simpa using hk, ?_⟩
          intro g hg
          exact hnone g (by rw [List.take_succ_cons]; exact List.mem_cons_of_mem f hg)

theorem createFaceLookup_eq (faces : List Face) (k : List Nat) :
    createFaceLookup faces k = lastMatch k 0 faces := by
  rw [createFaceLookup, buildFaceLookup_eq]
  cases lastMatch k 0 faces <;> rfl

theorem sort3_perm (a b c : Nat) : (sort3 a b c).Perm [a, b, c] := by
  unfold sort3
  split_ifs
  · exact List.Perm.refl _
  · exact List.Perm.cons a (List.Perm.swap b c [])
  · exact (List.Perm.swap a c [b]).trans (List.Perm.cons a (List.Perm.swap b c []))
  · exact List.Perm.swap a b [c]
  · exact (List.Perm.cons b (List.Perm.swap a c [])).trans (List.Perm.swap a b [c])
  · exact ((List.Perm.swap b c [a]).trans
      (List.Perm.cons b (List.Perm.swap a c []))).trans (List.Perm.swap a b [c])

theorem sort3_sorted (a b c : Nat) : (sort3 a b c).Sorted (· ≤ ·) := by
  unfold sort3
  split_ifs <;> simp [List.sorted_cons] <;> omega

theorem sort3_eq_of_perm {a b c x y z : Nat}
    (h : ([x, y, z] : List Nat).Perm [a, b, c]) :
    sort3 x y z = sort3 a b c :=
  List.eq_of_perm_of_sorted
    ((sort3_perm x y z).trans (h.trans (sort3_perm a b c).symm))
    (sort3_sorted x y z) (sort3_sorted a b c)

theorem triple_toFinset (a b c : Nat) :
    ([a, b, c] : List Nat).toFinset = tset (a, b, c) := by
  simp [tset]

theorem sort3_toFinset (a b c : Nat) :
    (sort3 a b c).toFinset = tset (a, b, c) := by
  rw [← triple_toFinset]
  exact List.toFinset_eq_of_perm _ _ (sort3_perm a b c)

/-- A face whose three vertex indices are pairwise distinct (the
non-degenerate case assumed by claim C7). -/
def distinctF (f : Face) : Prop := f.1 ≠ f.2.1 ∧ f.1 ≠ f.2.2 ∧ f.2.1 ≠ f.2.2

instance (f : Face) : Decidable (distinctF f) := by
  unfold distinctF; exact inferInstance

theorem distinctF_tset_card {f : Face} (h : distinctF f) : (tset f).card = 3 := by
  obtain ⟨h1, h2, h3⟩ := h
  rw [tset, Finset.card_insert_of_not_mem (by simp [h1, h2]),
    Finset.card_insert_of_not_mem (by simp [h3]), Finset.card_singleton]

theorem tset_card_le_two {v1 v2 v3 : Nat}
    (h : ¬(v1 ≠ v2 ∧ v1 ≠ v3 ∧ v2 ≠ v3)) :
    (tset (v1, v2, v3)).card ≤ 2 := by
  simp only [tset]
  by_cases h12 : v1 = v2
  · subst h12
    rw [Finset.insert_idem]
    exact le_trans (Finset.card_insert_le _ _) (by simp)
  · by_cases h13 : v1 = v3
    · subst h13
      rw [Finset.Insert.comm, Finset.insert_eq_self.mpr (Finset.mem_singleton_self _)]
      exact le_trans (Finset.card_insert_le _ _) (by simp)
    · have h23 : v2 = v3 := by tauto
      subst h23
      rw [Finset.insert_eq_self.mpr (Finset.mem_singleton_self _)]
      exact le_trans (Finset.card_insert_le _ _) (by simp)

theorem sortFace_eq_iff_tset_eq {f : Face} (hf : distinctF f) (v1 v2 v3 : Nat) :
    sortFace f = sort3 v1 v2 v3 ↔ tset f = tset (v1, v2, v3) := by
  constructor
  · intro h
    have h2 := congrArg List.toFinset h
    rw [sortFace, sort3_toFinset, sort3_toFinset] at h2
    exact h2
  · intro h
    have hq : v1 ≠ v2 ∧ v1 ≠ v3 ∧ v2 ≠ v3 := by
      by_contra hq
      have hle := tset_card_le_two hq
      rw [← h, distinctF_tset_card hf] at hle
      omega
    have hnd1 : ([f.1, f.2.1, f.2.2] : List Nat).Nodup := by
      simp [hf.1, hf.2.1, hf.2.2]
    have hnd2 : ([v1, v2, v3] : List Nat).Nodup := by
      simp [hq.1, hq.2.1, hq.2.2]
    have hfin : ([f.1, f.2.1, f.2.2] : List Nat).toFinset = [v1, v2, v3].toFinset := by
      rw [triple_toFinset, triple_toFinset]
      exact h
    exact sort3_eq_of_perm
      (List.perm_of_nodup_nodup_toFinset_eq hnd1 hnd2 hfin).symm |>.symm

/-- Claim C4: correlating a vertex-index triple to a face position through
the fast lookup is invariant under permutation of the triple, because
`_find_face_index_fast` sorts the query before the dictionary access. -/
theorem claimC4 (lookup : List Nat → Option Nat) (v1 v2 v3 w1 w2 w3 : Nat)
    (h : ([w1, w2, w3] : List Nat).Perm [v1, v2, v3]) :
    findFaceIndexFast lookup w1 w2 w3 = findFaceIndexFast lookup v1 v2 v3 := by
  rw [findFaceIndexFast, findFaceIndexFast, sort3_eq_of_perm h]

/-- Witness for claim C4: the annotation triple `(2, 0, 1)` and the mesh
face stored as `(0, 1, 2)` resolve to the same face position. -/
theorem claimC4_witness :
    ([2, 0, 1] : List Nat).Perm [0, 1, 2] ∧
      findFaceIndexFast (createFaceLookup [(0, 1, 2)]) 2 0 1 =
        findFaceIndexFast (createFaceLookup [(0, 1, 2)]) 0 1 2 :=
  ⟨by decide, claimC4 (createFaceLookup [(0, 1, 2)]) 0 1 2 2 0 1 (by decide)⟩

/-- Claim C5: after `_create_face_lookup`, a sorted vertex-triple key maps
to position `i` exactly when face `i` carries that key and no later face
does — the later of two duplicate-key faces wins and only it is
retrievable. -/
theorem claimC5 (faces : List Face) (k : List Nat) (i : Nat) :
    createFaceLookup faces k = some i ↔
      ∃ h : i < faces.length, sortFace faces[i] = k ∧
        ∀ g ∈ faces.drop (i + 1), sortFace g ≠ k := by
  rw [createFaceLookup_eq, lastMatch_eq_some]
  constructor
  · rintro ⟨t, ht, hit, hk, hd⟩
    have : t = i := by omega
    subst this
    exact ⟨ht, hk, hd⟩
  · rintro ⟨h, hk, hd⟩
    exact ⟨i, h, by omega, hk, hd⟩

theorem mem_drop_index {l : List Face} {m : Nat} {g : Face} (h : g ∈ l.drop m) :
    ∃ u, ∃ hu : u < l.length, m ≤ u ∧ l[u] = g := by
  obtain ⟨n, hn, he⟩ := List.mem_iff_getElem.mp h
  rw [List.getElem_drop] at he
  have hlen : (l.drop m).length = l.length - m := List.length_drop m l
  exact ⟨m + n, by omega, Nat.le_add_right m n, he⟩

/-- Claim C7: on a mesh whose faces all have three pairwise-distinct vertex
indices and no two of which share a vertex set, the dictionary-based fast
lookup agrees with the linear-scan set-equality lookup on every query
triple. -/
theorem claimC7 (faces : List Face)
    (hdist : ∀ f ∈ faces, distinctF f)
    (hpair : faces.Pairwise (fun f g => tset f ≠ tset g))
    (v1 v2 v3 : Nat) :
    findFaceIndexFast (createFaceLookup faces) v1 v2 v3 =
      findFaceIndex faces v1 v2 v3 := by
  rw [findFaceIndexFast, createFaceLookup_eq, findFaceIndex]
  cases hs : findFaceIndexAux v1 v2 v3 0 faces with
  | none =>
    have hnone := (findFaceIndexAux_eq_none faces 0 v1 v2 v3).mp hs
    apply (lastMatch_eq_none faces 0 (sort3 v1 v2 v3)).mpr
    intro g hg hkey
    exact hnone g hg ((sortFace_eq_iff_tset_eq (hdist g hg) v1 v2 v3).mp hkey)
  | some j =>
    obtain ⟨t, ht, hj, hk, _⟩ := (findFaceIndexAux_eq_some faces 0 j v1 v2 v3).mp hs
    have htj : t = j := by omega
    subst htj
    apply (lastMatch_eq_some faces 0 t (sort3 v1 v2 v3)).mpr
    refine ⟨t, ht, by omega,
      (sortFace_eq_iff_tset_eq (hdist _ (List.getElem_mem ht)) v1 v2 v3).mpr hk, ?_⟩
    intro g hg hkey
    obtain ⟨u, hu, hmu, hgu⟩ := mem_drop_index hg
    have hgmem : g ∈ faces := by rw [← hgu]; exact List.getElem_mem hu
    have hgt : tset g = tset (v1, v2, v3) :=
      (sortFace_eq_iff_tset_eq (hdist g hgmem) v1 v2 v3).mp hkey
    have hne : tset faces[t] ≠ tset faces[u] :=
      (List.pairwise_iff_getElem.mp hpair) t u ht hu (by omega)
    exact hne ((hk.trans hgt.symm).trans (congrArg tset hgu.symm))

/-- Witness for claim C7 on a concrete two-face mesh and a reordered query
triple. -/
theorem claimC7_witness :
    (∀ f ∈ [((0, 1, 2) : Face), (1, 2, 3)], distinctF f) ∧
      ([((0, 1, 2) : Face), (1, 2, 3)].Pairwise (fun f g => tset f ≠ tset g)) ∧
      findFaceIndexFast (createFaceLookup [((0, 1, 2) : Face), (1, 2, 3)]) 2 3 1 =
        findFaceIndex [((0, 1, 2) : Face), (1, 2, 3)] 2 3 1 :=
  ⟨by decide, by decide, claimC7 [(0, 1, 2), (1, 2, 3)] (by decide) (by decide) 2 3 1⟩

/-- A triangle record of the archive's model XML, as scanned by the two
regexes of `_parse_paint_colors` (lines 90 and 94): three vertex-index
attributes and an optional `paint_color` attribute.  With one record per
line (as the 3MF writer emits them), the `paint_color` regex collects
exactly the records whose `paint` field is `some`, in source order, and
the negative-lookahead regex collects exactly those whose field is
`none`, in source order. -/
structure Tri where
  v1 : Nat
  v2 : Nat
  v3 : Nat
  paint : Option Nat
deriving DecidableEq

/-- `re.findall(paint_color_pattern, content)` (line 91): the painted
records, in source order, as `(v1, v2, v3, paint_color)` tuples. -/
def paintTriangles (recs : List Tri) : List (Nat × Nat × Nat × Nat) :=
  recs.filterMap fun r =>
    match r.paint with
    | some c => some (r.v1, r.v2, r.v3, c)
    | none => none

/-- `re.findall(no_paint_pattern, content)` (line 95): the colourless
records, in source order, as `(v1, v2, v3)` tuples. -/
def noPaintTriangles (recs : List Tri) : List (Nat × Nat × Nat) :=
  recs.filterMap fun r =>
    match r.paint with
    | none => some (r.v1, r.v2, r.v3)
    | some _ => none

/-- `self._find_face_index_fast(int(v1), int(v2), int(v3))` applied to a
painted tuple (line 109). -/
def resolveQuad (lookup : List Nat → Option Nat) (t : Nat × Nat × Nat × Nat) :
    Option Nat :=
  findFaceIndexFast lookup t.1 t.2.1 t.2.2.1

/-- `self._find_face_index_fast(int(v1), int(v2), int(v3))` applied to a
colourless tuple (line 115). -/
def resolveTriple (lookup : List Nat → Option Nat) (t : Nat × Nat × Nat) :
    Option Nat :=
  findFaceIndexFast lookup t.1 t.2.1 t.2.2

/-- CPython dict assignment `m[k] = v` on an insertion-ordered
association list: an existing key is updated in place, a new key is
appended. -/
def dinsert (m : List (Nat × Nat)) (k v : Nat) : List (Nat × Nat) :=
  if m.any (fun p => decide (p.1 = k)) then
    m.map (fun p => if p.1 = k then (k, v) else p)
  else m ++ [(k, v)]

/-- Dict read `m.get(k)`: the value stored at `k`, if any. -/
def dget (m : List (Nat × Nat)) (k : Nat) : Option Nat :=
  (m.find? (fun p => decide (p.1 = k))).map (fun p => p.2)

/-- The dict's key view, in insertion order. -/
def dkeys (m : List (Nat × Nat)) : List Nat := m.map (fun p => p.1)

/-- One iteration of either merge loop of `_parse_paint_colors`: resolve
the tuple to a face position via the fast lookup, write `val t` there on
a hit (`self.face_paint_colors[face_idx] = ...`), skip the tuple on a
correlation miss. -/
def dinsertStep {α : Type} (resolve : α → Option Nat) (val : α → Nat)
    (acc : List (Nat × Nat)) (t : α) : List (Nat × Nat) :=
  match resolve t with
  | some i => dinsert acc i (val t)
  | none => acc

/-- The first loop of `_parse_paint_colors` (lines 107–111): fold the
painted tuples over the map, writing the tuple's colour at the resolved
face position. -/
def mergeQuads (lookup : List Nat → Option Nat) (m : List (Nat × Nat))
    (ts : List (Nat × Nat × Nat × Nat)) : List (Nat × Nat) :=
  ts.foldl (dinsertStep (resolveQuad lookup) (fun t => t.2.2.2)) m

/-- The second loop of `_parse_paint_colors` (lines 114–117): fold the
colourless tuples over the map, writing the default colour `0` at the
resolved face position. -/
def mergeTriples (lookup : List Nat → Option Nat) (m : List (Nat × Nat))
    (ts : List (Nat × Nat × Nat)) : List (Nat × Nat) :=
  ts.foldl (dinsertStep (resolveTriple lookup) (fun _ => 0)) m

/-- `_parse_paint_colors` (lines 87–117): start from the empty
`face_paint_colors` dict, process all painted records first, then all
colourless records. -/
def parsePaintColors (lookup : List Nat → Option Nat) (recs : List Tri) :
    List (Nat × Nat) :=
  mergeTriples lookup (mergeQuads lookup [] (paintTriangles recs))
    (noPaintTriangles recs)

theorem find?_append {α : Type} (p : α → Bool) (l₁ l₂ : List α) :
    (l₁ ++ l₂).find? p = match l₁.find? p with
      | some a => some a
      | none => l₂.find? p := by
  induction l₁ with
  | nil => simp
  | cons x l₁ ih =>
    by_cases hx : p x
    · simp [List.find?_cons, hx]
    · simp [List.find?_cons, hx, ih]

theorem dget_map_update_self (m : List (Nat × Nat)) (k v : Nat)
    (hany : m.any (fun p => decide (p.1 = k)) = true) :
    dget (m.map (fun p => if p.1 = k then (k, v) else p)) k = some v := by
  induction m with
  | nil => cases hany
  | cons x m ih =>
    by_cases hx : x.1 = k
    · simp only [List.map_cons, if_pos hx, dget]
      simp [List.find?_cons]
    · have hm : m.any (fun p => decide (p.1 = k)) = true := by
        simpa [List.any_cons, hx] using hany
      simp only [List.map_cons, if_neg hx, dget]
      rw [List.find?_cons_of_neg _ (by simp [hx])]
      exact ih hm

theorem dget_map_update_ne (m : List (Nat × Nat)) (k v i : Nat) (hik : i ≠ k) :
    dget (m.map (fun p => if p.1 = k then (k, v) else p)) i = dget m i := by
  induction m with
  | nil => rfl
  | cons x m ih =>
    by_cases hx : x.1 = k
    · simp only [List.map_cons, if_pos hx, dget]
      rw [List.find?_cons_of_neg _ (by simp [Ne.symm hik]),
        List.find?_cons_of_neg _ (by simp [hx, Ne.symm hik])]
      exact ih
    · simp only [List.map_cons, if_neg hx, dget]
      by_cases hxi : x.1 = i
      · rw [List.find?_cons_of_pos _ (by simp [hxi]),
          List.find?_cons_of_pos _ (by simp [hxi])]
      · rw [List.find?_cons_of_neg _ (by simp [hxi]),
          List.find?_cons_of_neg _ (by simp [hxi])]
        exact ih

theorem dget_append_single (m : List (Nat × Nat)) (k v i : Nat) :
    dget (m ++ [(k, v)]) i =
      match dget m i with
      | some w => some w
      | none => if i = k then some v else none := by
  rw [dget, find?_append]
  cases hf : m.find? (fun p => decide (p.1 = i)) with
  | some p => simp [dget, hf]
  | none =>
    simp only [dget, hf, Option.map_none]
    by_cases hk : k = i
    · rw [List.find?_cons_of_pos _ (by simp [hk])]
      simp [hk]
    · rw [List.find?_cons_of_neg _ (by simp [hk])]
      rw [if_neg (fun (h : i = k) => hk h.symm)]
      rfl

theorem dget_dinsert_self (m : List (Nat × Nat)) (k v : Nat) :
    dget (dinsert m k v) k = some v := by
  rw [dinsert]
  by_cases hany : m.any (fun p => decide (p.1 = k)) = true
  · rw [if_pos hany]
    exact dget_map_update_self m k v hany
  · rw [if_neg hany]
    rw [dget_append_single]
    have hnone : m.find? (fun p => decide (p.1 = k)) = none := by
      rw [List.find?_eq_none]
      intro p hp hpf
      exact hany (List.any_eq_true.mpr ⟨p, hp, hpf⟩)
    simp [dget, hnone]

theorem dget_dinsert_ne (m : List (Nat × Nat)) (k v i : Nat) (hik : i ≠ k) :
    dget (dinsert m k v) i = dget m i := by
  rw [dinsert]
  by_cases hany : m.any (fun p => decide (p.1 = k)) = true
  · rw [if_pos hany]
    exact dget_map_update_ne m k v i hik
  · rw [if_neg hany]
    rw [dget_append_single]
    cases hf : dget m i with
    | some w => rfl
    | none => simp [hik]

/-- The value contributed by the most recent matching write: `some (val r)`
when a write `r` was found, otherwise the previous content. -/
def lookupWrite {α : Type} (found : Option α) (val : α → Nat)
    (fallback : Option Nat) : Option Nat :=
  match found with
  | some r => some (val r)
  | none => fallback

theorem dget_foldl_dinsert {α : Type} (resolve : α → Option Nat) (val : α → Nat)
    (rs : List α) :
    ∀ (m : List (Nat × Nat)) (i : Nat),
      dget (rs.foldl (dinsertStep resolve val) m) i =
      lookupWrite (rs.reverse.find? (fun r => decide (resolve r = some i)))
        val (dget m i) := by
  induction rs with
  | nil => intro m i; rfl
  | cons r rs ih =>
    intro m i
    rw [List.foldl_cons, ih, List.reverse_cons, find?_append]
    cases hf : rs.reverse.find? (fun r => decide (resolve r = some i)) with
    | some a => rfl
    | none =>
      simp only []
      cases hr : resolve r with
      | some j =>
        rw [show dinsertStep resolve val m r = dinsert m j (val r) by
          rw [dinsertStep, hr]]
        by_cases hji : j = i
        · subst hji
          rw [List.find?_cons_of_pos _ (by simp [hr])]
          exact dget_dinsert_self m j (val r)
        · rw [List.find?_cons_of_neg _ (by simp [hr, hji]), List.find?_nil]
          exact dget_dinsert_ne m j (val r) i (fun h => hji h.symm)
      | none =>
        rw [show dinsertStep resolve val m r = m by rw [dinsertStep, hr]]
        rw [List.find?_cons_of_neg _ (by simp [hr]), List.find?_nil]

theorem dget_mergeQuads (lookup : List Nat → Option Nat)
    (ts : List (Nat × Nat × Nat × Nat)) (m : List (Nat × Nat)) (i : Nat) :
    dget (mergeQuads lookup m ts) i =
      lookupWrite
        (ts.reverse.find? (fun t => decide (resolveQuad lookup t = some i)))
        (fun t => t.2.2.2) (dget m i) :=
  dget_foldl_dinsert (resolveQuad lookup) (fun t => t.2.2.2) ts m i

theorem dget_mergeTriples (lookup : List Nat → Option Nat)
    (ts : List (Nat × Nat × Nat)) (m : List (Nat × Nat)) (i : Nat) :
    dget (mergeTriples lookup m ts) i =
      lookupWrite
        (ts.reverse.find? (fun t => decide (resolveTriple lookup t = some i)))
        (fun _ => 0) (dget m i) :=
  dget_foldl_dinsert (resolveTriple lookup) (fun _ => 0) ts m i

/-- Counterexample to claim C1: with a colourless record followed by a
paint-colored record on the same face, source order says the later
(colour `5`) wins, but the code processes all painted records before all
colourless ones, so the face ends with the default colour `0`. -/
theorem claimC1_counterexample :
    dget (parsePaintColors (createFaceLookup [((0, 1, 2) : Face)])
        [⟨0, 1, 2, none⟩, ⟨0, 1, 2, some 5⟩]) 0 = some 0 ∧
      dget (parsePaintColors (createFaceLookup [((0, 1, 2) : Face)])
        [⟨0, 1, 2, none⟩, ⟨0, 1, 2, some 5⟩]) 0 ≠ some 5 := by
  constructor
  · rfl
  · intro h
    cases h

/-- Claim C1 as amended: annotations are merged in two passes — all
paint-colored records first, in source order, then all colourless
records, in source order, each writing the default colour `0`; within
this processing order, the last write to a face position wins.  Hence a
face's final colour is `0` whenever any colourless record resolves to
it, and otherwise the colour of the last paint-colored record in source
order resolving to it; in particular, two paint-colored records with
colours `5` then `7` resolving to the same face yield `7`. -/
theorem claimC1_amended (lookup : List Nat → Option Nat) (recs : List Tri)
    (i : Nat) :
    (dget (parsePaintColors lookup recs) i =
      lookupWrite
        ((noPaintTriangles recs).reverse.find?
          (fun t => decide (resolveTriple lookup t = some i)))
        (fun _ => 0)
        (lookupWrite
          ((paintTriangles recs).reverse.find?
            (fun t => decide (resolveQuad lookup t = some i)))
          (fun t => t.2.2.2) none)) ∧
      dget (parsePaintColors (createFaceLookup [((0, 1, 2) : Face)])
        [⟨0, 1, 2, some 5⟩, ⟨0, 1, 2, some 7⟩]) 0 = some 7 := by
  constructor
  · rw [parsePaintColors, dget_mergeTriples, dget_mergeQuads]
    rfl
  · rfl

/-- Claim C6: a record with no explicit colour attribute that correlates
to a face position leaves that face with the default colour id `0` in
the final map (colourless records are processed last and always write
`0`). -/
theorem claimC6 (lookup : List Nat → Option Nat) (recs : List Tri) (r : Tri)
    (i : Nat) (hr : r ∈ recs) (hnp : r.paint = none)
    (hres : findFaceIndexFast lookup r.v1 r.v2 r.v3 = some i) :
    dget (parsePaintColors lookup recs) i = some 0 := by
  rw [parsePaintColors, dget_mergeTriples]
  have hmem : (r.v1, r.v2, r.v3) ∈ (noPaintTriangles recs).reverse := by
    rw [List.mem_reverse, noPaintTriangles, List.mem_filterMap]
    exact ⟨r, hr, by rw [hnp]⟩
  cases hf : (noPaintTriangles recs).reverse.find?
      (fun t => decide (resolveTriple lookup t = some i)) with
  | some t => rfl
  | none =>
    exfalso
    apply List.find?_eq_none.mp hf _ hmem
    simp only [resolveTriple, hres, decide_eq_true_eq]

/-- Witness for claim C6: a colourless record `(2, 0, 1)` correlating to
the single face `(0, 1, 2)` produces colour `0` for face position `0`. -/
theorem claimC6_witness :
    (⟨2, 0, 1, none⟩ : Tri) ∈ [(⟨2, 0, 1, none⟩ : Tri)] ∧
      (⟨2, 0, 1, none⟩ : Tri).paint = none ∧
      findFaceIndexFast (createFaceLookup [((0, 1, 2) : Face)]) 2 0 1 = some 0 ∧
      dget (parsePaintColors (createFaceLookup [((0, 1, 2) : Face)])
        [⟨2, 0, 1, none⟩]) 0 = some 0 :=
  ⟨by decide, rfl, by decide,
    claimC6 (createFaceLookup [((0, 1, 2) : Face)]) [⟨2, 0, 1, none⟩]
      ⟨2, 0, 1, none⟩ 0 (by decide) rfl (by decide)⟩

theorem dkeys_dinsert_of_mem {m : List (Nat × Nat)} {k : Nat} (v : Nat)
    (h : m.any (fun p => decide (p.1 = k)) = true) :
    dkeys (dinsert m k v) = dkeys m := by
  rw [dinsert, if_pos h, dkeys, dkeys, List.map_map]
  apply List.map_congr_left
  intro p _
  by_cases hp : p.1 = k
  · simp [hp]
  · simp [hp]

theorem dkeys_dinsert_of_not_mem {m : List (Nat × Nat)} {k : Nat} (v : Nat)
    (h : m.any (fun p => decide (p.1 = k)) = false) :
    dkeys (dinsert m k v) = dkeys m ++ [k] := by
  rw [dinsert, if_neg (by simp [h]), dkeys, dkeys, List.map_append]
  rfl

theorem dkeys_nodup_dinsert {m : List (Nat × Nat)} {k : Nat} (v : Nat)
    (h : (dkeys m).Nodup) : (dkeys (dinsert m k v)).Nodup := by
  cases hany : m.any (fun p => decide (p.1 = k)) with
  | true => rw [dkeys_dinsert_of_mem v hany]; exact h
  | false =>
    rw [dkeys_dinsert_of_not_mem v hany]
    have hk : k ∉ dkeys m := by
      intro hmem
      obtain ⟨p, hp, hpk⟩ := List.mem_map.mp hmem
      have : m.any (fun p => decide (p.1 = k)) = true :=
        List.any_eq_true.mpr ⟨p, hp, by simp [hpk]⟩
      rw [hany] at this
      cases this
    simp [List.nodup_append, h, hk]

theorem dkeys_nodup_foldl {α : Type} (resolve : α → Option Nat)
    (val : α → Nat) (rs : List α) :
    ∀ m : List (Nat × Nat), (dkeys m).Nodup →
      (dkeys (rs.foldl (dinsertStep resolve val) m)).Nodup := by
  induction rs with
  | nil => intro m h; exact h
  | cons r rs ih =>
    intro m h
    rw [List.foldl_cons]
    apply ih
    rw [dinsertStep]
    cases resolve r with
    | some j => exact dkeys_nodup_dinsert _ h
    | none => exact h

/-- The keys of the map built by `_parse_paint_colors` are distinct: it
is a Python dict. -/
theorem parsePaintColors_keys_nodup (lookup : List Nat → Option Nat)
    (recs : List Tri) : (dkeys (parsePaintColors lookup recs)).Nodup := by
  rw [parsePaintColors, mergeTriples, mergeQuads]
  exact dkeys_nodup_foldl _ _ _ _
    (dkeys_nodup_foldl _ _ _ _ (by simp [dkeys]))

theorem createFaceLookup_lt_length {faces : List Face} {k : List Nat}
    {i : Nat} (h : createFaceLookup faces k = some i) : i < faces.length := by
  rw [createFaceLookup_eq] at h
  obtain ⟨t, ht, rfl, _, _⟩ := (lastMatch_eq_some faces 0 i k).mp h
  omega

theorem mem_dkeys_dinsert {m : List (Nat × Nat)} {k v i : Nat}
    (h : i ∈ dkeys (dinsert m k v)) : i ∈ dkeys m ∨ i = k := by
  cases hany : m.any (fun p => decide (p.1 = k)) with
  | true => rw [dkeys_dinsert_of_mem v hany] at h; exact Or.inl h
  | false =>
    rw [dkeys_dinsert_of_not_mem v hany] at h
    rcases List.mem_append.mp h with h | h
    · exact Or.inl h
    · exact Or.inr (by simpa using h)

theorem dkeys_foldl_bound {α : Type} (resolve : α → Option Nat)
    (val : α → Nat) (P : Nat → Prop)
    (hres : ∀ r j, resolve r = some j → P j) (rs : List α) :
    ∀ m : List (Nat × Nat), (∀ i ∈ dkeys m, P i) →
      ∀ i ∈ dkeys (rs.foldl (dinsertStep resolve val) m), P i := by
  induction rs with
  | nil => intro m h; exact h
  | cons r rs ih =>
    intro m h
    rw [List.foldl_cons]
    apply ih
    intro i hi
    rw [dinsertStep] at hi
    cases hr : resolve r with
    | some j =>
      rw [hr] at hi
      rcases mem_dkeys_dinsert hi with hi | rfl
      · exact h i hi
      · exact hres r i hr
    | none =>
      rw [hr] at hi
      exact h i hi

/-- Every key of the map built by `_parse_paint_colors` over the lookup
of the mesh's own face list is a valid face position — the spec's
FaceColorMap domain-bound invariant holds by construction. -/
theorem parsePaintColors_keys_lt (faces : List Face) (recs : List Tri) :
    ∀ i ∈ dkeys (parsePaintColors (createFaceLookup faces) recs),
      i < faces.length := by
  rw [parsePaintColors, mergeTriples, mergeQuads]
  apply dkeys_foldl_bound
  · intro r j hr
    exact createFaceLookup_lt_length hr
  · apply dkeys_foldl_bound
    · intro r j hr
      exact createFaceLookup_lt_length hr
    · intro i hi
      simp [dkeys] at hi

/-- The grouping loop of `_handle_paint_coloring` (lines 213–217): the
face positions collected for paint colour `c`, in map iteration order,
keeping only positions below the mesh's face count `F`. -/
def paintColorGroup (m : List (Nat × Nat)) (F c : Nat) : List Nat :=
  (m.filter (fun p => decide (p.2 = c ∧ p.1 < F))).map (fun p => p.1)

theorem mem_paintColorGroup {m : List (Nat × Nat)} {F c i : Nat} :
    i ∈ paintColorGroup m F c ↔ ∃ p ∈ m, p.2 = c ∧ p.1 < F ∧ p.1 = i := by
  rw [paintColorGroup]
  constructor
  · intro h
    obtain ⟨p, hp, rfl⟩ := List.mem_map.mp h
    have := List.mem_filter.mp hp
    exact ⟨p, this.1, (of_decide_eq_true this.2).1, (of_decide_eq_true this.2).2, rfl⟩
  · rintro ⟨p, hp, hc, hF, rfl⟩
    exact List.mem_map.mpr ⟨p, List.mem_filter.mpr ⟨hp, decide_eq_true ⟨hc, hF⟩⟩, rfl⟩

/-- Claim C3: over a face-colour map with distinct keys all below the
face count (the spec's FaceColorMap invariants), the paint-colour groups
are pairwise disjoint in face membership and their union is exactly the
map's key set. -/
theorem claimC3 (m : List (Nat × Nat)) (F : Nat)
    (hnd : (dkeys m).Nodup) (hdom : ∀ p ∈ m, p.1 < F) :
    (∀ c c', c ≠ c' → ∀ i, i ∈ paintColorGroup m F c →
        i ∉ paintColorGroup m F c') ∧
      (∀ i, (∃ c, i ∈ paintColorGroup m F c) ↔ i ∈ dkeys m) := by
  constructor
  · intro c c' hcc i hc hc'
    obtain ⟨p, hp, hpc, _, hpi⟩ := mem_paintColorGroup.mp hc
    obtain ⟨q, hq, hqc, _, hqi⟩ := mem_paintColorGroup.mp hc'
    have hpq : p = q :=
      List.inj_on_of_nodup_map hnd hp hq (hpi.trans hqi.symm)
    exact hcc (hpc.symm.trans (hpq ▸ hqc))
  · intro i
    constructor
    · rintro ⟨c, hc⟩
      obtain ⟨p, hp, _, _, hpi⟩ := mem_paintColorGroup.mp hc
      exact List.mem_map.mpr ⟨p, hp, hpi⟩
    · intro h
      obtain ⟨p, hp, hpi⟩ := List.mem_map.mp h
      exact ⟨p.2, mem_paintColorGroup.mpr ⟨p, hp, rfl, hdom p hp, hpi⟩⟩

/-- Witness for claim C3 on the map `{0 ↦ 5, 1 ↦ 0}` of the spec's
worked scenario, with face count `2`. -/
theorem claimC3_witness :
    ((dkeys [(0, 5), (1, 0)]).Nodup ∧ ∀ p ∈ [(0, 5), (1, 0)], p.1 < 2) ∧
      ((∀ c c', c ≠ c' → ∀ i, i ∈ paintColorGroup [(0, 5), (1, 0)] 2 c →
          i ∉ paintColorGroup [(0, 5), (1, 0)] 2 c') ∧
        (∀ i, (∃ c, i ∈ paintColorGroup [(0, 5), (1, 0)] 2 c) ↔
          i ∈ dkeys [(0, 5), (1, 0)])) :=
  ⟨⟨by decide, by decide⟩, claimC3 [(0, 5), (1, 0)] 2 (by decide) (by decide)⟩

/-- The capability flags probed by
`_extract_materials_from_mesh_with_paint` (lines 195–198):
`hasattr(mesh, 'visual')`, `hasattr(mesh.visual, 'material')` and
`hasattr(mesh.visual, 'vertex_colors')`. -/
structure MeshInfo where
  hasVisual : Bool
  hasMaterial : Bool
  hasVertexColors : Bool

/-- Which branch of `_extract_materials_from_mesh_with_paint`
(lines 190–204) handles the mesh: paint colouring, or one of the three
fallbacks (material colouring, vertex colouring, the single default
group). -/
inductive ColorBranch
  | paint
  | material
  | vertex
  | defaultGroup
deriving DecidableEq

/-- The `if/elif/elif/else` chain of
`_extract_materials_from_mesh_with_paint` (lines 192–204), dispatching
on `self.face_paint_colors is not None` first. -/
def extractBranch (fpc : Option (List (Nat × Nat))) (m : MeshInfo) :
    ColorBranch :=
  if fpc.isSome then ColorBranch.paint
  else if m.hasVisual && m.hasMaterial then ColorBranch.material
  else if m.hasVisual && m.hasVertexColors then ColorBranch.vertex
  else ColorBranch.defaultGroup

/-- `_extract_paint_colors` (lines 66–101) combined with `load_3mf`:
when no object file is found in the archive the method returns early and
`face_paint_colors` stays `None`; otherwise `_parse_paint_colors` runs
on the extracted records and always sets the dict (line 101), even when
the record list is empty. -/
def facePaintColorsOf (lookup : List Nat → Option Nat)
    (extracted : Option (List Tri)) : Option (List (Nat × Nat)) :=
  match extracted with
  | none => none
  | some recs => some (parsePaintColors lookup recs)

/-- Counterexample to claim C2: an archive whose object file exists but
contains zero triangle records — the Annotation Extractor yields no
annotation data at all, yet `face_paint_colors` is set (to the empty
dict), so the paint branch runs and no fallback colouring happens, even
on a mesh carrying a material. -/
theorem claimC2_counterexample :
    (some ([] : List Tri)).elim 0 List.length = 0 ∧
      extractBranch
        (facePaintColorsOf (createFaceLookup [((0, 1, 2) : Face)])
          (some ([] : List Tri)))
        ⟨true, true, true⟩ = ColorBranch.paint := by
  constructor
  · rfl
  · rfl

/-- Claim C2 as amended: fallback colouring runs if and only if no
annotation source member was found in the archive (the extraction step
returned nothing, leaving `face_paint_colors` as `None`) — not if and
only if zero annotations were yielded; and faces absent from the parsed
map belong to no paint-colour group. -/
theorem claimC2_amended (lookup : List Nat → Option Nat) (m : MeshInfo)
    (recs : List Tri) (F i c : Nat)
    (h : i ∉ dkeys (parsePaintColors lookup recs)) :
    (∀ extracted : Option (List Tri),
        extractBranch (facePaintColorsOf lookup extracted) m ≠
            ColorBranch.paint ↔ extracted = none) ∧
      i ∉ paintColorGroup (parsePaintColors lookup recs) F c := by
  constructor
  · intro extracted
    cases extracted with
    | none =>
      constructor
      · intro _; rfl
      · intro _
        rw [facePaintColorsOf, extractBranch]
        simp only [Option.isSome_none, Bool.false_eq_true, if_false]
        split_ifs <;> decide
    | some recs2 =>
      constructor
      · intro hne
        exfalso
        exact hne (by rw [facePaintColorsOf, extractBranch]; rfl)
      · intro hcontra; cases hcontra
  · intro hmem
    obtain ⟨p, hp, _, _, hpi⟩ := mem_paintColorGroup.mp hmem
    exact h (List.mem_map.mpr ⟨p, hp, hpi⟩)

/-- Witness for claim C2 (amended) on a concrete archive with one painted
record: face position `1` is not a key of the parsed map and joins no
group, and fallback runs exactly when extraction found no source
member. -/
theorem claimC2_witness :
    (1 ∉ dkeys (parsePaintColors (createFaceLookup [((0, 1, 2) : Face)])
        [⟨0, 1, 2, some 5⟩])) ∧
      ((∀ extracted : Option (List Tri),
          extractBranch
              (facePaintColorsOf (createFaceLookup [((0, 1, 2) : Face)])
                extracted)
              ⟨true, true, true⟩ ≠ ColorBranch.paint ↔ extracted = none) ∧
        1 ∉ paintColorGroup
          (parsePaintColors (createFaceLookup [((0, 1, 2) : Face)])
            [⟨0, 1, 2, some 5⟩]) 1 5) :=
  ⟨by decide,
    claimC2_amended (createFaceLookup [((0, 1, 2) : Face)])
      ⟨true, true, true⟩ [⟨0, 1, 2, some 5⟩] 1 1 5 (by decide)⟩

/-- The output path built by `export_split_meshes` (lines 334–336):
`output_path / f"{base_name}_{color_key}.{format}"`, with POSIX path
joining rendered as string concatenation. -/
def exportPath (stem outputDir fmt colorKey : String) : String :=
  outputDir ++ "/" ++ (stem ++ "_" ++ colorKey ++ "." ++ fmt)

/-- The export loop of `export_split_meshes` (lines 333–346): try to
export every split mesh; `mesh.export` is an external collaborator
modelled by the oracle `exportOk` (true = the write succeeds, false =
it raises).  A raising export is caught by the `except` block (and
logged), so the loop continues; only successful paths are appended to
`exported_files`. -/
def exportSplitMeshes {α : Type} (stem outputDir fmt : String)
    (splitMeshes : List (String × α)) (exportOk : String → α → Bool) :
    List String :=
  splitMeshes.foldl (fun acc p =>
    if exportOk (exportPath stem outputDir fmt p.1) p.2 then
      acc ++ [exportPath stem outputDir fmt p.1]
    else acc) []

theorem foldl_if_append {α : Type} (q : α → Bool) (f : α → String)
    (l : List α) :
    ∀ acc : List String,
      l.foldl (fun acc x => if q x then acc ++ [f x] else acc) acc =
        acc ++ (l.filter q).map f := by
  induction l with
  | nil => intro acc; simp
  | cons x l ih =>
    intro acc
    rw [List.foldl_cons]
    by_cases hx : q x
    · rw [if_pos hx, ih, List.filter_cons_of_pos hx]
      simp
    · rw [if_neg hx, ih, List.filter_cons_of_neg (by simpa using hx)]

/-- Claim C8: a failing per-group export is caught and the remaining
groups are still attempted; the returned list is exactly the paths of
the groups whose export succeeded, in order. -/
theorem claimC8 {α : Type} (stem outputDir fmt : String)
    (splitMeshes : List (String × α)) (exportOk : String → α → Bool) :
    exportSplitMeshes stem outputDir fmt splitMeshes exportOk =
      (splitMeshes.filter
          (fun p => exportOk (exportPath stem outputDir fmt p.1) p.2)).map
        (fun p => exportPath stem outputDir fmt p.1) := by
  rw [exportSplitMeshes]
  rw [foldl_if_append (fun p => exportOk (exportPath stem outputDir fmt p.1) p.2)
    (fun p => exportPath stem outputDir fmt p.1) splitMeshes []]
  rfl

/-- A mesh fragment as handled by `split_by_color`: vertex coordinates
plus faces over local vertex indices. -/
structure SubMesh where
  vertices : List (ℚ × ℚ × ℚ)
  faces : List (Nat × Nat × Nat)
deriving DecidableEq

/-- `trimesh.util.concatenate` (line 319): append vertex arrays and
shift each appended mesh's face indices by the running vertex count. -/
def concatMeshes (ms : List SubMesh) : SubMesh :=
  ms.foldl (fun acc m =>
    ⟨acc.vertices ++ m.vertices,
      acc.faces ++ m.faces.map (fun f =>
        (f.1 + acc.vertices.length, f.2.1 + acc.vertices.length,
          f.2.2 + acc.vertices.length))⟩)
    ⟨[], []⟩

/-- `split_by_color` (lines 305–322): one output mesh per colour key —
the group's sole mesh when the group holds exactly one
(`if len(meshes) == 1: split_meshes[color_key] = meshes[0]['mesh']`),
otherwise the concatenation of all of them. -/
def splitByColor (colorGroups : List (String × List SubMesh)) :
    List (String × SubMesh) :=
  colorGroups.map (fun p =>
    match p.2 with
    | [m] => (p.1, m)
    | ms => (p.1, concatMeshes ms))

/-- Claim C10: a colour key whose group collected exactly one submesh is
mapped to that very submesh, unchanged — no concatenation or vertex
renumbering is applied; concatenation happens only for groups whose
length is not one. -/
theorem claimC10 (groups : List (String × List SubMesh)) (k1 k2 : String)
    (m : SubMesh) (ms : List SubMesh)
    (h1 : (k1, [m]) ∈ groups) (h2 : (k2, ms) ∈ groups)
    (h3 : ms.length ≠ 1) :
    (k1, m) ∈ splitByColor groups ∧
      (k2, concatMeshes ms) ∈ splitByColor groups := by
  constructor
  · exact List.mem_map.mpr ⟨(k1, [m]), h1, rfl⟩
  · refine List.mem_map.mpr ⟨(k2, ms), h2, ?_⟩
    rcases ms with _ | ⟨x, rest⟩
    · rfl
    · rcases rest with _ | ⟨y, rest⟩
      · exact absurd rfl h3
      · rfl

/-- Witness for claim C10: a singleton group is passed through as the
identical submesh while a two-element group is concatenated. -/
theorem claimC10_witness :
    ((("a", [(⟨[(0, 0, 0)], [(0, 0, 0)]⟩ : SubMesh)]) ∈
        [("a", [(⟨[(0, 0, 0)], [(0, 0, 0)]⟩ : SubMesh)]),
          ("b", [(⟨[(0, 0, 0)], [(0, 0, 0)]⟩ : SubMesh), ⟨[], []⟩])]) ∧
      (("b", [(⟨[(0, 0, 0)], [(0, 0, 0)]⟩ : SubMesh), ⟨[], []⟩]) ∈
        [("a", [(⟨[(0, 0, 0)], [(0, 0, 0)]⟩ : SubMesh)]),
          ("b", [(⟨[(0, 0, 0)], [(0, 0, 0)]⟩ : SubMesh), ⟨[], []⟩])]) ∧
      ([(⟨[(0, 0, 0)], [(0, 0, 0)]⟩ : SubMesh), ⟨[], []⟩].length ≠ 1)) ∧
      (("a", (⟨[(0, 0, 0)], [(0, 0, 0)]⟩ : SubMesh)) ∈
          splitByColor
            [("a", [(⟨[(0, 0, 0)], [(0, 0, 0)]⟩ : SubMesh)]),
              ("b", [(⟨[(0, 0, 0)], [(0, 0, 0)]⟩ : SubMesh), ⟨[], []⟩])] ∧
        ("b", concatMeshes [(⟨[(0, 0, 0)], [(0, 0, 0)]⟩ : SubMesh), ⟨[], []⟩]) ∈
          splitByColor
            [("a", [(⟨[(0, 0, 0)], [(0, 0, 0)]⟩ : SubMesh)]),
              ("b", [(⟨[(0, 0, 0)], [(0, 0, 0)]⟩ : SubMesh), ⟨[], []⟩])]) :=
  ⟨⟨by decide, by decide, by decide⟩,
    claimC10
      [("a", [(⟨[(0, 0, 0)], [(0, 0, 0)]⟩ : SubMesh)]),
        ("b", [(⟨[(0, 0, 0)], [(0, 0, 0)]⟩ : SubMesh), ⟨[], []⟩])]
      "a" "b" ⟨[(0, 0, 0)], [(0, 0, 0)]⟩
      [(⟨[(0, 0, 0)], [(0, 0, 0)]⟩ : SubMesh), ⟨[], []⟩]
      (by decide) (by decide) (by decide)⟩

/-- An RGBA colour row of `mesh.visual.vertex_colors`, with the float
arithmetic of the source carried out over exact rationals. -/
structure Col4 where
  r : ℚ
  g : ℚ
  b : ℚ
  a : ℚ
deriving DecidableEq

/-- `np.mean(face_vertex_colors, axis=0)` over a face's three vertex
colours (line 266). -/
def colAvg (c1 c2 c3 : Col4) : Col4 :=
  ⟨(c1.r + c2.r + c3.r) / 3, (c1.g + c2.g + c3.g) / 3,
    (c1.b + c2.b + c3.b) / 3, (c1.a + c2.a + c3.a) / 3⟩

/-- `np.isclose(x, y, atol=1e-6)` (line 275).  numpy keeps its default
relative tolerance `rtol = 1e-5`, so the test is
`|x - y| <= atol + rtol * |y|`. -/
def isClose (x y : ℚ) : Bool :=
  decide (|x - y| ≤ 1 / 1000000 + (1 / 100000) * |y|)

/-- `np.all(np.isclose(...), axis=1)`: closeness in every one of the
four channels. -/
def close4 (x y : Col4) : Bool :=
  isClose x.r y.r && isClose x.g y.g && isClose x.b y.b && isClose x.a y.a

/-- The lexicographic row order under which `np.unique(..., axis=0)`
returns its rows. -/
def colLex (x y : Col4) : Bool :=
  if x.r < y.r then true else if y.r < x.r then false
  else if x.g < y.g then true else if y.g < x.g then false
  else if x.b < y.b then true else if y.b < x.b then false
  else decide (x.a ≤ y.a)

/-- Sorted-dedup insertion realising one step of
`np.unique(..., axis=0)`. -/
def insertUnique (c : Col4) : List Col4 → List Col4
  | [] => [c]
  | d :: ds =>
      if c = d then d :: ds
      else if colLex c d then c :: d :: ds
      else d :: insertUnique c ds

/-- `np.unique(face_colors_array, axis=0)` (line 271): the distinct
rows, in lexicographic order. -/
def uniqueRows (l : List Col4) : List Col4 := l.foldr insertUnique []

/-- Python `int(q)`: truncation toward zero. -/
def pyInt (q : ℚ) : ℤ := if 0 ≤ q then ⌊q⌋ else ⌈q⌉

/-- One channel of `_color_to_key` (line 290):
`int(c * 255) if c <= 1 else int(c)`. -/
def colorChannelKey (c : ℚ) : ℤ := if c ≤ 1 then pyInt (c * 255) else pyInt c

/-- `_color_to_key` (lines 287–293) on the first three channels of the
colour row. -/
def colorToKey (c : Col4) : String :=
  "color_" ++ toString (colorChannelKey c.r) ++ "_" ++
    toString (colorChannelKey c.g) ++ "_" ++ toString (colorChannelKey c.b)

/-- A mesh as consumed by `_handle_vertex_coloring`: its per-vertex
colour rows and its faces. -/
structure VMesh where
  vertexColors : List Col4
  faces : List Face
deriving DecidableEq

/-- Out-of-range vertex indices would raise in the source; the total
model returns an all-zero row for them. -/
def defaultCol : Col4 := ⟨0, 0, 0, 0⟩

/-- The `face_colors` list built in lines 263–267: the averaged vertex
colours, one row per face, in face order. -/
def faceColors (m : VMesh) : List Col4 :=
  m.faces.map (fun f =>
    colAvg (m.vertexColors.getD f.1 defaultCol)
      (m.vertexColors.getD f.2.1 defaultCol)
      (m.vertexColors.getD f.2.2 defaultCol))

/-- `mesh.submesh([color_mask])` (line 277) modelled by the selected
face positions: the indices at which the boolean mask is true. -/
def maskFaces : List Bool → Nat → List Nat
  | [], _ => []
  | true :: bs, i => i :: maskFaces bs (i + 1)
  | false :: bs, i => maskFaces bs (i + 1)

/-- `_add_to_color_group` (lines 295–303): append the submesh to the
key's list, creating the key on first use (insertion order kept). -/
def addToColorGroup (groups : List (String × List (List Nat))) (key : String)
    (sub : List Nat) : List (String × List (List Nat)) :=
  if groups.any (fun p => decide (p.1 = key)) then
    groups.map (fun p => if p.1 = key then (p.1, p.2 ++ [sub]) else p)
  else groups ++ [(key, [sub])]

/-- One iteration of the `for color in unique_colors` loop of
`_handle_vertex_coloring` (lines 273–282): build the closeness mask
against the face-colour rows, and if any face matches, add the selected
submesh under the colour's key. -/
def vcStep (fcs : List Col4) (groups : List (String × List (List Nat)))
    (c : Col4) : List (String × List (List Nat)) :=
  let mask := fcs.map (fun x => close4 x c)
  if mask.any id then
    addToColorGroup groups (colorToKey c) (maskFaces mask 0)
  else groups

/-- `_handle_vertex_coloring` (lines 252–285), nonempty-colours branch:
fold the per-unique-colour loop over the empty group map. -/
def handleVertexColoring (m : VMesh) : List (String × List (List Nat)) :=
  (uniqueRows (faceColors m)).foldl (vcStep (faceColors m)) []

theorem isClose_refl (x : ℚ) : isClose x x = true := by
  rw [isClose, decide_eq_true_eq, sub_self, abs_zero]
  positivity

theorem close4_refl (x : Col4) : close4 x x = true := by
  simp [close4, isClose_refl]

theorem addToColorGroup_nil (K : String) (sub : List Nat) :
    addToColorGroup [] K sub = [(K, [sub])] := by
  simp [addToColorGroup]

theorem addToColorGroup_same (g : List (List Nat)) (K : String)
    (sub : List Nat) :
    addToColorGroup [(K, g)] K sub = [(K, g ++ [sub])] := by
  simp [addToColorGroup]

theorem addToColorGroup_newKey (K K2 : String) (g : List (List Nat))
    (sub : List Nat) (h : K ≠ K2) :
    addToColorGroup [(K, g)] K2 sub = [(K, g), (K2, [sub])] := by
  simp [addToColorGroup, h]

/-- For a mesh whose two faces average to distinct colour rows, the
vertex-colour fallback produces: two groups when the rows are mutually
non-close and their truncated colour keys differ, one group when the
keys coincide (whether the rows are mutually close or mutually
non-close). -/
theorem twoFaceSplit (m : VMesh) (c1 c2 : Col4)
    (h : faceColors m = [c1, c2]) (hne : c1 ≠ c2) :
    (close4 c1 c2 = false → close4 c2 c1 = false →
      (handleVertexColoring m).length =
        if colorToKey c1 = colorToKey c2 then 1 else 2) ∧
      (close4 c1 c2 = true → close4 c2 c1 = true →
        colorToKey c1 = colorToKey c2 →
        (handleVertexColoring m).length = 1) := by
  have hu : uniqueRows [c1, c2] =
      if colLex c1 c2 then [c1, c2] else [c2, c1] := by
    simp only [uniqueRows, List.foldr_cons, List.foldr_nil, insertUnique]
    rw [if_neg hne]
  constructor
  · intro h12 h21
    have hm1 : [c1, c2].map (fun x => close4 x c1) = [true, false] := by
      simp [close4_refl, h21]
    have hm2 : [c1, c2].map (fun x => close4 x c2) = [false, true] := by
      simp [close4_refl, h12]
    have s1 : vcStep [c1, c2] [] c1 = [(colorToKey c1, [[0]])] := by
      simp [vcStep, hm1, maskFaces, addToColorGroup_nil]
    have s2 : vcStep [c1, c2] [] c2 = [(colorToKey c2, [[1]])] := by
      simp [vcStep, hm2, maskFaces, addToColorGroup_nil]
    rw [handleVertexColoring, h, hu]
    by_cases hk : colorToKey c1 = colorToKey c2
    · rw [if_pos hk]
      by_cases hlex : colLex c1 c2
      · rw [if_pos hlex, List.foldl_cons, List.foldl_cons, List.foldl_nil, s1]
        have s2g : vcStep [c1, c2] [(colorToKey c1, [[0]])] c2 =
            [(colorToKey c1, [[0], [1]])] := by
          simp only [vcStep, hm2]
          rw [← hk]
          simp [maskFaces, addToColorGroup_same]
        rw [s2g]
        rfl
      · rw [if_neg hlex, List.foldl_cons, List.foldl_cons, List.foldl_nil, s2]
        have s1g : vcStep [c1, c2] [(colorToKey c2, [[1]])] c1 =
            [(colorToKey c2, [[1], [0]])] := by
          simp only [vcStep, hm1]
          rw [hk]
          simp [maskFaces, addToColorGroup_same]
        rw [s1g]
        rfl
    · rw [if_neg hk]
      by_cases hlex : colLex c1 c2
      · rw [if_pos hlex, List.foldl_cons, List.foldl_cons, List.foldl_nil, s1]
        have s2g : vcStep [c1, c2] [(colorToKey c1, [[0]])] c2 =
            [(colorToKey c1, [[0]]), (colorToKey c2, [[1]])] := by
          simp only [vcStep, hm2]
          simp [maskFaces, addToColorGroup_newKey _ _ _ _ hk]
        rw [s2g]
        rfl
      · rw [if_neg hlex, List.foldl_cons, List.foldl_cons, List.foldl_nil, s2]
        have s1g : vcStep [c1, c2] [(colorToKey c2, [[1]])] c1 =
            [(colorToKey c2, [[1]]), (colorToKey c1, [[0]])] := by
          simp only [vcStep, hm1]
          simp [maskFaces,
            addToColorGroup_newKey _ _ _ _ (fun e => hk e.symm)]
        rw [s1g]
        rfl
  · intro h12 h21 hkey
    have hm1 : [c1, c2].map (fun x => close4 x c1) = [true, true] := by
      simp [close4_refl, h21]
    have hm2 : [c1, c2].map (fun x => close4 x c2) = [true, true] := by
      simp [close4_refl, h12]
    have s1 : vcStep [c1, c2] [] c1 = [(colorToKey c1, [[0, 1]])] := by
      simp [vcStep, hm1, maskFaces, addToColorGroup_nil]
    have s2 : vcStep [c1, c2] [] c2 = [(colorToKey c2, [[0, 1]])] := by
      simp [vcStep, hm2, maskFaces, addToColorGroup_nil]
    rw [handleVertexColoring, h, hu]
    by_cases hlex : colLex c1 c2
    · rw [if_pos hlex, List.foldl_cons, List.foldl_cons, List.foldl_nil, s1]
      have s2g : vcStep [c1, c2] [(colorToKey c1, [[0, 1]])] c2 =
          [(colorToKey c1, [[0, 1], [0, 1]])] := by
        simp only [vcStep, hm2]
        rw [← hkey]
        simp [maskFaces, addToColorGroup_same]
      rw [s2g]
      rfl
    · rw [if_neg hlex, List.foldl_cons, List.foldl_cons, List.foldl_nil, s2]
      have s1g : vcStep [c1, c2] [(colorToKey c2, [[0, 1]])] c1 =
          [(colorToKey c2, [[0, 1], [0, 1]])] := by
        simp only [vcStep, hm1]
        rw [hkey]
        simp [maskFaces, addToColorGroup_same]
      rw [s1g]
      rfl

/-- Averaged colour row `(100, 100, 100, 255)`. -/
def cexA : Col4 := ⟨100, 100, 100, 255⟩

/-- Averaged colour row `(100.01, 100.01, 100.01, 255)`: `0.01` away from
`cexA` in each colour channel, but truncating to the same key. -/
def cexB : Col4 := ⟨10001 / 100, 10001 / 100, 10001 / 100, 255⟩

/-- Averaged colour row `(102, 102, 102, 255)`: far from `cexA` and with
a different truncated key. -/
def cexC : Col4 := ⟨102, 102, 102, 255⟩

/-- Two-face mesh whose faces average to `cexA` and `cexB`. -/
def vmeshCex : VMesh :=
  ⟨[cexA, cexA, cexA, cexB, cexB, cexB], [(0, 1, 2), (3, 4, 5)]⟩

/-- Two-face mesh whose faces average to `cexA` and `cexC`. -/
def vmeshWit : VMesh :=
  ⟨[cexA, cexA, cexA, cexC, cexC, cexC], [(0, 1, 2), (3, 4, 5)]⟩

theorem faceColors_vmeshCex : faceColors vmeshCex = [cexA, cexB] := by
  have hface : faceColors vmeshCex =
      [colAvg cexA cexA cexA, colAvg cexB cexB cexB] := rfl
  have havgA : colAvg cexA cexA cexA = cexA := by
    simp only [colAvg, cexA, Col4.mk.injEq]
    norm_num
  have havgB : colAvg cexB cexB cexB = cexB := by
    simp only [colAvg, cexB, Col4.mk.injEq]
    norm_num
  rw [hface, havgA, havgB]

theorem faceColors_vmeshWit : faceColors vmeshWit = [cexA, cexC] := by
  have hface : faceColors vmeshWit =
      [colAvg cexA cexA cexA, colAvg cexC cexC cexC] := rfl
  have havgA : colAvg cexA cexA cexA = cexA := by
    simp only [colAvg, cexA, Col4.mk.injEq]
    norm_num
  have havgC : colAvg cexC cexC cexC = cexC := by
    simp only [colAvg, cexC, Col4.mk.injEq]
    norm_num
  rw [hface, havgA, havgC]

theorem cexA_ne_cexB : cexA ≠ cexB := by
  intro h
  have h2 := congrArg Col4.r h
  simp only [cexA, cexB] at h2
  norm_num at h2

theorem cexA_ne_cexC : cexA ≠ cexC := by
  intro h
  have h2 := congrArg Col4.r h
  simp only [cexA, cexC] at h2
  norm_num at h2

theorem isClose_A_B : isClose (100 : ℚ) (10001 / 100) = false := by
  rw [isClose, decide_eq_false_iff_not,
    show ((100 : ℚ) - 10001 / 100) = -(1 / 100) from by norm_num, abs_neg,
    abs_of_nonneg (show (0 : ℚ) ≤ 1 / 100 from by norm_num),
    abs_of_nonneg (show (0 : ℚ) ≤ 10001 / 100 from by norm_num)]
  norm_num

theorem isClose_B_A : isClose ((10001 : ℚ) / 100) 100 = false := by
  rw [isClose, decide_eq_false_iff_not,
    show ((10001 : ℚ) / 100 - 100) = 1 / 100 from by norm_num,
    abs_of_nonneg (show (0 : ℚ) ≤ 1 / 100 from by norm_num),
    abs_of_nonneg (show (0 : ℚ) ≤ (100 : ℚ) from by norm_num)]
  norm_num

theorem isClose_A_C : isClose (100 : ℚ) 102 = false := by
  rw [isClose, decide_eq_false_iff_not,
    show ((100 : ℚ) - 102) = -2 from by norm_num, abs_neg,
    abs_of_nonneg (show (0 : ℚ) ≤ (2 : ℚ) from by norm_num),
    abs_of_nonneg (show (0 : ℚ) ≤ (102 : ℚ) from by norm_num)]
  norm_num

theorem isClose_C_A : isClose (102 : ℚ) 100 = false := by
  rw [isClose, decide_eq_false_iff_not,
    show ((102 : ℚ) - 100) = 2 from by norm_num,
    abs_of_nonneg (show (0 : ℚ) ≤ (2 : ℚ) from by norm_num),
    abs_of_nonneg (show (0 : ℚ) ≤ (100 : ℚ) from by norm_num)]
  norm_num

theorem close4_A_B : close4 cexA cexB = false := by
  simp only [close4, cexA, cexB]
  rw [isClose_A_B]
  simp

theorem close4_B_A : close4 cexB cexA = false := by
  simp only [close4, cexA, cexB]
  rw [isClose_B_A]
  simp

theorem close4_A_C : close4 cexA cexC = false := by
  simp only [close4, cexA, cexC]
  rw [isClose_A_C]
  simp

theorem close4_C_A : close4 cexC cexA = false := by
  simp only [close4, cexA, cexC]
  rw [isClose_C_A]
  simp

theorem colorChannelKey_A : colorChannelKey (100 : ℚ) = 100 := by
  rw [colorChannelKey, if_neg (by norm_num), pyInt, if_pos (by norm_num)]
  norm_num

theorem colorChannelKey_B : colorChannelKey ((10001 : ℚ) / 100) = 100 := by
  rw [colorChannelKey, if_neg (by norm_num), pyInt, if_pos (by norm_num)]
  norm_num

theorem key_A_eq_key_B : colorToKey cexA = colorToKey cexB := by
  simp only [colorToKey, cexA, cexB]
  rw [colorChannelKey_A, colorChannelKey_B]

/-- Counterexample to claim C9: two faces whose averaged vertex colours
differ by exactly `0.01` in each colour channel, yet both averaged rows
truncate to the key `color_100_100_100`, so the two submeshes land in a
single colour group — not the two groups the claim requires. -/
theorem claimC9_counterexample :
    faceColors vmeshCex = [cexA, cexB] ∧
      cexB.r - cexA.r = 1 / 100 ∧ cexB.g - cexA.g = 1 / 100 ∧
      cexB.b - cexA.b = 1 / 100 ∧
      (handleVertexColoring vmeshCex).length = 1 ∧
      (handleVertexColoring vmeshCex).length ≠ 2 := by
  have hlen :=
    (twoFaceSplit vmeshCex cexA cexB faceColors_vmeshCex cexA_ne_cexB).1
      close4_A_B close4_B_A
  rw [if_pos key_A_eq_key_B] at hlen
  refine ⟨faceColors_vmeshCex, by norm_num [cexA, cexB], by norm_num [cexA, cexB],
    by norm_num [cexA, cexB], hlen, ?_⟩
  rw [hlen]
  norm_num

/-- Claim C9 as amended: clustering uses `np.isclose` with the
component-wise absolute tolerance `1e-6` and numpy's default relative
tolerance `1e-5`, and the resulting submeshes are grouped by the
truncated integer colour key.  For a two-face mesh with distinct
averaged rows: when each row is outside the other's tolerance, two
groups arise exactly when the truncated keys differ (a `0.01`
difference with coinciding keys yields one group); when the rows are
mutually within tolerance and the keys coincide (the `1e-7` case), one
group arises. -/
theorem claimC9_amended (m : VMesh) (c1 c2 : Col4)
    (h : faceColors m = [c1, c2]) (hne : c1 ≠ c2) :
    (close4 c1 c2 = false → close4 c2 c1 = false →
      (handleVertexColoring m).length =
        if colorToKey c1 = colorToKey c2 then 1 else 2) ∧
      (close4 c1 c2 = true → close4 c2 c1 = true →
        colorToKey c1 = colorToKey c2 →
        (handleVertexColoring m).length = 1) :=
  twoFaceSplit m c1 c2 h hne

/-- Witness for claim C9 (amended) on the mesh averaging to rows `100`
and `102`: the rows are mutually non-close, so the group count is two
exactly when the truncated keys differ. -/
theorem claimC9_witness :
    faceColors vmeshWit = [cexA, cexC] ∧ cexA ≠ cexC ∧
      close4 cexA cexC = false ∧ close4 cexC cexA = false ∧
      (handleVertexColoring vmeshWit).length =
        if colorToKey cexA = colorToKey cexC then 1 else 2 :=
  ⟨faceColors_vmeshWit, cexA_ne_cexC, close4_A_C, close4_C_A,
    (claimC9_amended vmeshWit cexA cexC faceColors_vmeshWit cexA_ne_cexC).1
      close4_A_C close4_C_A⟩

end ColorSplit
